import Mathlib

/-!
A shallow embedding of the patient-counter application core.

The embedded code comes from `src/src/App.tsx` (session ledger, current
session state, counter operations, finish/merge logic, history filters,
storage adapters) and from the service worker `public/sw.js` (cache
activation).  JavaScript strings are Lean `String`s; string comparison
(`localeCompare` and the `<`/`>` operators, applied here only to ASCII
dates and timestamps) is modelled as lexicographic comparison on the
character list.  JavaScript numbers holding counter values are modelled
as `Int`.  `string | null` values are `Option String`, and JavaScript
truthiness on them (both `null` and `""` are falsy) is made explicit.
`localStorage` and `JSON` are modelled as explicit function parameters
returning `Except Unit`, an `Except.error` standing for a thrown
exception.  `Array.prototype.sort`, a stable sort by the supplied
comparator, is modelled as insertion sort (which is stable) by the
corresponding relation.
-/

namespace PatientCounter

/-- Lexicographic order on character lists: the model of JavaScript
string comparison for the ASCII date / timestamp strings used here
(`cmpA.localeCompare(cmpB) <= 0`, and `a < b` via `strLtB`). -/
def lexLe : List Char → List Char → Bool
  | [], _ => true
  | _ :: _, [] => false
  | a :: as, b :: bs => if a = b then lexLe as bs else decide (a < b)

/-- String comparison on the underlying character lists. -/
def strLe (a b : String) : Bool := lexLe a.data b.data

/-- Strict string comparison, the model of JavaScript `a < b`. -/
def strLtB (a b : String) : Bool := strLe a b && a != b

/-- Session record (App.tsx lines 7-13). -/
structure Session where
  sessionId : String
  date : String
  location : String
  total : Int
  finishedAt : String
deriving Repr, DecidableEq, Inhabited

/-- Storage key `pc_sessions_v1` (App.tsx line 16). -/
def SESSIONS_KEY : String := "pc_sessions_v1"

/-- Storage key `pc_current_v1` (App.tsx line 17). -/
def CURRENT_KEY : String := "pc_current_v1"

/-- App.tsx line 31: `clamp(v, min, max) = Math.max(min, Math.min(max, v))`. -/
def clamp (v lo hi : Int) : Int := max lo (min hi v)

/-- Current transient state (App.tsx lines 63-69). -/
structure CurrentState where
  date : Option String
  location : Option String
  newCount : Int
  oldCount : Int
  locked : Bool
deriving Repr, DecidableEq

/-- JavaScript truthiness of a `string | null` value: `null` and `""` are falsy. -/
def truthy : Option String → Bool
  | none => false
  | some s => s ≠ ""

/-- The two counter fields, the `"newCount" | "oldCount"` key type. -/
inductive CKey
  | newCount
  | oldCount
deriving Repr, DecidableEq

/-- Read a counter field by key. -/
def getC (s : CurrentState) : CKey → Int
  | .newCount => s.newCount
  | .oldCount => s.oldCount

/-- Write a counter field by key (the spread `{ ...s, [key]: val }`). -/
def setC (s : CurrentState) : CKey → Int → CurrentState
  | .newCount, v => { s with newCount := v }
  | .oldCount, v => { s with oldCount := v }

/-- App.tsx lines 101-103: `total`, and `canStart = Boolean(date) && Boolean(location)`
(`counterEnabled = canStart`). -/
def counterEnabled (s : CurrentState) : Bool := truthy s.date && truthy s.location

/-- Combined total of the current session (App.tsx line 101). -/
def totalOf (s : CurrentState) : Int := s.newCount + s.oldCount

/-- App.tsx lines 105-113, `onInc`: no-op unless enabled; clamp to [0, 99];
`locked := s.locked || val > 0 || s.newCount + s.oldCount > 0`. -/
def onInc (k : CKey) (s : CurrentState) : CurrentState :=
  if !counterEnabled s then s
  else
    let val := clamp (getC s k + 1) 0 99
    { setC s k val with
        locked := s.locked || decide (0 < val) || decide (0 < s.newCount + s.oldCount) }

/-- App.tsx lines 114-122, `onDec`: no-op unless enabled; clamp to [0, 99];
`locked := s.locked || s.newCount + s.oldCount > 0`. -/
def onDec (k : CKey) (s : CurrentState) : CurrentState :=
  if !counterEnabled s then s
  else
    let val := clamp (getC s k - 1) 0 99
    { setC s k val with
        locked := s.locked || decide (0 < s.newCount + s.oldCount) }

/-- App.tsx lines 123-126, `onReset`: zero one counter when enabled; `locked` untouched. -/
def onReset (k : CKey) (s : CurrentState) : CurrentState :=
  if !counterEnabled s then s else setC s k 0

/-- App.tsx lines 128-131, `changeDate`: no-op when locked. -/
def changeDate (v : String) (s : CurrentState) : CurrentState :=
  if s.locked then s else { s with date := some v }

/-- App.tsx lines 132-135, `changeLocation`: no-op when locked. -/
def changeLocation (v : String) (s : CurrentState) : CurrentState :=
  if s.locked then s else { s with location := some v }

/-- The sort relation of the comparator at App.tsx lines 149/158:
`(a, b) => a.date === b.date ? b.finishedAt.localeCompare(a.finishedAt)
: b.date.localeCompare(a.date)`; `a` sorts no later than `b` exactly when
the comparator is ≤ 0. -/
def sRel : Session → Session → Prop := fun a b =>
  (if a.date = b.date then strLe b.finishedAt a.finishedAt else strLe b.date a.date) = true

instance : DecidableRel sRel := fun a b => by unfold sRel; infer_instance

/-- The `.sort(...)` call on the session array: a stable sort by the
comparator, modelled as insertion sort by `sRel`. -/
def sortSessions (l : List Session) : List Session := List.insertionSort sRel l

/-- The `findIndex` predicate at App.tsx line 144:
`r.date === current.date && r.location === current.location`. -/
def sessionKeyMatch (date location : String) (r : Session) : Bool :=
  r.date == date && r.location == location

/-- The `setSessions` update inside `doFinish` (App.tsx lines 143-159):
merge into the record at the found index, or prepend a fresh record;
either way re-sort. `ts` models `localISO()` and `newId` models `uuidv4()`. -/
def mergeOrAppend (prev : List Session) (date location : String) (amount : Int)
    (ts newId : String) : List Session :=
  match prev.findIdx? (sessionKeyMatch date location) with
  | some idx =>
      sortSessions (prev.set idx
        { prev.getD idx default with
            total := (prev.getD idx default).total + amount, finishedAt := ts })
  | none =>
      sortSessions
        ({ sessionId := newId, date := date, location := location, total := amount,
           finishedAt := ts } :: prev)

/-- The `setCurrent` part of `doFinish` (App.tsx lines 138-142 and 162):
on the early return the state is unchanged; otherwise counters reset to 0
and `locked` resets to false, date/location kept. -/
def finishCurrent (s : CurrentState) : CurrentState :=
  if totalOf s = 0 || !truthy s.date || !truthy s.location then s
  else { s with newCount := 0, oldCount := 0, locked := false }

/-- App.tsx lines 138-164, `doFinish`: early return (no ledger change, state
unchanged) when `total === 0` or date/location is falsy; otherwise merge or
append into the ledger and reset the counters and lock. -/
def doFinish (sessions : List Session) (cur : CurrentState) (ts newId : String) :
    List Session × CurrentState :=
  if totalOf cur = 0 || !truthy cur.date || !truthy cur.location then (sessions, cur)
  else
    (mergeOrAppend sessions (cur.date.getD "") (cur.location.getD "") (totalOf cur) ts newId,
     { cur with newCount := 0, oldCount := 0, locked := false })

/-- The user-visible operations on the current-session state. -/
inductive Op
  | inc (k : CKey)
  | dec (k : CKey)
  | reset (k : CKey)
  | setDate (v : String)
  | setLocation (v : String)
  | finish (ts newId : String)

/-- One operation applied to the current-session state. -/
def applyOp (op : Op) (s : CurrentState) : CurrentState :=
  match op with
  | .inc k => onInc k s
  | .dec k => onDec k s
  | .reset k => onReset k s
  | .setDate v => changeDate v s
  | .setLocation v => changeLocation v s
  | .finish _ _ => finishCurrent s

/-- The initial current-session state (App.tsx line 75): today's date, no
location, zero counters, unlocked. `today` models `todayISO()`. -/
def initialCurrent (today : String) : CurrentState :=
  { date := some today, location := none, newCount := 0, oldCount := 0, locked := false }

/-- Run a sequence of operations from the initial state. -/
def applyOps (today : String) (ops : List Op) : CurrentState :=
  ops.foldl (fun s op => applyOp op s) (initialCurrent today)

/-- States reachable from the initial state by some operation sequence. -/
def Reachable (today : String) (s : CurrentState) : Prop :=
  ∃ ops, applyOps today ops = s

/-- App.tsx lines 35-42, `loadSessions`: inside a try/catch, read the raw
string (`getItem` models `localStorage.getItem`, an `Except.error` a
storage exception), return `[]` when the key is absent or the raw value is
falsy, otherwise parse it (`parse` models `JSON.parse`, an `Except.error`
a parse exception caught by the same catch, yielding `[]`). -/
def loadSessions (getItem : Except Unit (Option String))
    (parse : String → Except Unit (List Session)) : List Session :=
  match getItem with
  | .error _ => []
  | .ok none => []
  | .ok (some raw) =>
      if raw = "" then []
      else
        match parse raw with
        | .ok v => v
        | .error _ => []

/-- App.tsx lines 43-45, `saveSessions`: a single `setItem` of the
serialized list, with no try/catch around it — an exception from `setItem`
propagates to the caller. -/
def saveSessions (setItem : String → String → Except Unit Unit)
    (stringify : List Session → String) (list : List Session) : Except Unit Unit :=
  setItem SESSIONS_KEY (stringify list)

/-- App.tsx lines 70-79, `loadCurrent`: like `loadSessions` but the default
is the initial current-session state for today. -/
def loadCurrent (today : String) (getItem : Except Unit (Option String))
    (parse : String → Except Unit CurrentState) : CurrentState :=
  match getItem with
  | .error _ => initialCurrent today
  | .ok none => initialCurrent today
  | .ok (some raw) =>
      if raw = "" then initialCurrent today
      else
        match parse raw with
        | .ok v => v
        | .error _ => initialCurrent today

/-- App.tsx line 80, `saveCurrent`: a single uncaught `setItem` of the
serialized state. -/
def saveCurrent (setItem : String → String → Except Unit Unit)
    (stringify : CurrentState → String) (s : CurrentState) : Except Unit Unit :=
  setItem CURRENT_KEY (stringify s)

/-- History filter controls (App.tsx lines 167-176): `none` models the
`"ALL"` sentinel for location and year, `0` the all-months sentinel, and
`""` an unset bound of the date range. `fromDate`/`toDate` are the
source's `from`/`to`. -/
structure FilterSpec where
  locFilter : Option String
  yearFilter : Option String
  monthFilter : Nat
  fromDate : String
  toDate : String
deriving Repr, DecidableEq

/-- Model of `s.date.slice(0, 4)`. -/
def yearOf (date : String) : String := String.mk (date.data.take 4)

/-- Model of `Number(s.date.slice(5, 7))` as used at App.tsx line 182: the
two month characters parsed as a decimal number, `none` when they are not
digits (in the source a non-numeric slice yields `NaN`, which likewise
matches no selected month). -/
def monthNumber (date : String) : Option Nat :=
  match (date.data.drop 5).take 2 with
  | [a, b] =>
      if a.isDigit ∧ b.isDigit then some ((a.toNat - 48) * 10 + (b.toNat - 48)) else none
  | [a] => if a.isDigit then some (a.toNat - 48) else none
  | _ => none

/-- The filter predicate of the `filtered` memo (App.tsx lines 178-187),
one early `return false` per condition. -/
def passes (f : FilterSpec) (s : Session) : Bool :=
  if f.locFilter.elim false (fun loc => s.location != loc) then false
  else if f.yearFilter.elim false (fun y => yearOf s.date != y) then false
  else if f.monthFilter != 0 && monthNumber s.date != some f.monthFilter then false
  else if f.fromDate != "" && strLtB s.date f.fromDate then false
  else if f.toDate != "" && strLtB f.toDate s.date then false
  else true

/-- App.tsx lines 178-187, `filtered`: `sessions.filter(...)`, a pure
function of the ledger leaving it untouched. -/
def filteredSessions (f : FilterSpec) (sessions : List Session) : List Session :=
  sessions.filter (passes f)

/-- sw.js line 2: the current cache version tag. -/
def CACHE : String := "pcache-v1"

/-- The decision the activate handler (sw.js lines 18-25) takes for one
cache name: `k === CACHE ? null : caches.delete(k)` — `true` when the
cache named `k` is deleted. -/
def activateDeletes (k : String) : Bool := k != CACHE

/-- The cache names that survive activation: the existing keys the handler
does not delete. -/
def cachesAfterActivate (keys : List String) : List String :=
  keys.filter (fun k => !activateDeletes k)

/-- Composite natural key of a session: the merge lookup key. -/
def skey (r : Session) : String × String := (r.date, r.location)

/-- Key uniqueness of a ledger: at most one session per (date, location). -/
def KeyUnique (l : List Session) : Prop := (l.map skey).Nodup

/-- The per-session sortedness relation of the spec: strictly earlier
dates come later, and within a date, earlier `finishedAt` comes later. -/
def SortedByDateThenRecency (l : List Session) : Prop :=
  l.Pairwise fun a b =>
    (a.date = b.date ∧ strLe b.finishedAt a.finishedAt = true) ∨
    (strLe b.date a.date = true ∧ b.date ≠ a.date)

/-- Counter-state invariant: counters within [0, 99] and a positive
combined total forces the lock. -/
def CounterInv (s : CurrentState) : Prop :=
  0 ≤ s.newCount ∧ s.newCount ≤ 99 ∧ 0 ≤ s.oldCount ∧ s.oldCount ≤ 99 ∧
    (0 < s.newCount + s.oldCount → s.locked = true)

/-- The operations of claim C3: increments and decrements only. -/
def IsIncDec : Op → Prop
  | .inc _ => True
  | .dec _ => True
  | _ => False

/-- Every operation other than `finish`. -/
def NonFinishOp : Op → Prop
  | .finish _ _ => False
  | _ => True

section OrderLemmas

theorem lexLe_refl (l : List Char) : lexLe l l = true := by
  induction l with
  | nil => rfl
  | cons a as ih => simp [lexLe, ih]

theorem lexLe_total (a b : List Char) : lexLe a b = true ∨ lexLe b a = true := by
  induction a generalizing b with
  | nil => left; rfl
  | cons x xs ih =>
    cases b with
    | nil => right; rfl
    | cons y ys =>
      by_cases h : x = y
      · subst h
        rcases ih ys with h1 | h1
        · left; simpa [lexLe] using h1
        · right; simpa [lexLe] using h1
      · rcases lt_or_gt_of_ne h with hlt | hgt
        · left; unfold lexLe; rw [if_neg h]; exact decide_eq_true hlt
        · right; unfold lexLe; rw [if_neg (Ne.symm h)]; exact decide_eq_true hgt

theorem lexLe_antisymm : ∀ (a b : List Char),
    lexLe a b = true → lexLe b a = true → a = b
  | [], [], _, _ => rfl
  | [], _ :: _, _, h2 => by simp [lexLe] at h2
  | _ :: _, [], h1, _ => by simp [lexLe] at h1
  | x :: xs, y :: ys, h1, h2 => by
    by_cases h : x = y
    · subst h
      simp only [lexLe, if_pos rfl] at h1 h2
      rw [lexLe_antisymm xs ys h1 h2]
    · unfold lexLe at h1 h2
      rw [if_neg h] at h1
      rw [if_neg (Ne.symm h)] at h2
      exact absurd (lt_trans (of_decide_eq_true h1) (of_decide_eq_true h2))
        (lt_irrefl x)

theorem lexLe_trans : ∀ (a b c : List Char),
    lexLe a b = true → lexLe b c = true → lexLe a c = true
  | [], _, _, _, _ => rfl
  | _ :: _, [], _, h1, _ => by simp [lexLe] at h1
  | _ :: _, _ :: _, [], _, h2 => by simp [lexLe] at h2
  | x :: xs, y :: ys, z :: zs, h1, h2 => by
    by_cases hxy : x = y <;> by_cases hyz : y = z
    · subst hxy; subst hyz
      simp only [lexLe, if_pos rfl] at h1 h2 ⊢
      exact lexLe_trans xs ys zs h1 h2
    · subst hxy
      unfold lexLe at h2 ⊢
      rw [if_neg hyz] at h2
      rw [if_neg hyz]
      exact h2
    · subst hyz
      unfold lexLe at h1 ⊢
      rw [if_neg hxy] at h1
      rw [if_neg hxy]
      exact h1
    · unfold lexLe at h1 h2 ⊢
      rw [if_neg hxy] at h1
      rw [if_neg hyz] at h2
      have hlt := lt_trans (of_decide_eq_true h1) (of_decide_eq_true h2)
      rw [if_neg (ne_of_lt hlt)]
      exact decide_eq_true hlt

theorem strLe_total (a b : String) : strLe a b = true ∨ strLe b a = true :=
  lexLe_total a.data b.data

theorem strLe_antisymm {a b : String} (h1 : strLe a b = true) (h2 : strLe b a = true) :
    a = b :=
  String.ext (lexLe_antisymm a.data b.data h1 h2)

theorem strLe_trans {a b c : String} (h1 : strLe a b = true) (h2 : strLe b c = true) :
    strLe a c = true :=
  lexLe_trans a.data b.data c.data h1 h2

instance : IsTotal Session sRel := by
  constructor
  intro a b
  unfold sRel
  by_cases h : a.date = b.date
  · rw [if_pos h, if_pos h.symm]
    exact strLe_total b.finishedAt a.finishedAt
  · rw [if_neg h, if_neg (Ne.symm h)]
    exact strLe_total b.date a.date

instance : IsTrans Session sRel := by
  constructor
  intro a b c hab hbc
  unfold sRel at hab hbc ⊢
  by_cases h1 : a.date = b.date <;> by_cases h2 : b.date = c.date
  · rw [if_pos h1] at hab
    rw [if_pos h2] at hbc
    rw [if_pos (h1.trans h2)]
    exact strLe_trans hbc hab
  · rw [if_pos h1] at hab
    rw [if_neg h2] at hbc
    have hac : a.date ≠ c.date := fun e => h2 (h1.symm.trans e)
    rw [if_neg hac]
    rw [h1]
    exact hbc
  · rw [if_neg h1] at hab
    rw [if_pos h2] at hbc
    have hac : a.date ≠ c.date := fun e => h1 (e.trans h2.symm)
    rw [if_neg hac]
    rw [← h2]
    exact hab
  · rw [if_neg h1] at hab
    rw [if_neg h2] at hbc
    have hle := strLe_trans hbc hab
    by_cases hac : a.date = c.date
    · exact absurd (strLe_antisymm hab (hac ▸ hbc)) (fun e => h1 e.symm)
    · rw [if_neg hac]
      exact hle

theorem sortSessions_perm (l : List Session) : (sortSessions l).Perm l :=
  List.perm_insertionSort sRel l

theorem sortSessions_sorted (l : List Session) :
    SortedByDateThenRecency (sortSessions l) := by
  refine (List.sorted_insertionSort sRel l).imp ?_
  intro a b h
  unfold sRel at h
  by_cases hd : a.date = b.date
  · rw [if_pos hd] at h
    exact Or.inl ⟨hd, h⟩
  · rw [if_neg hd] at h
    exact Or.inr ⟨h, Ne.symm hd⟩

end OrderLemmas

section ClampLemmas

theorem clamp_lb (v : Int) : 0 ≤ clamp v 0 99 := le_max_left 0 _

theorem clamp_ub (v : Int) : clamp v 0 99 ≤ 99 :=
  max_le (by norm_num) (min_le_left 99 v)

theorem clamp_pos {v : Int} : 0 < clamp v 0 99 ↔ 0 < v := by
  unfold clamp
  rw [lt_max_iff, lt_min_iff]
  constructor
  · rintro (h | ⟨-, h⟩)
    · exact absurd h (lt_irrefl 0)
    · exact h
  · intro h
    exact Or.inr ⟨by norm_num, h⟩

end ClampLemmas

section LedgerLemmas

theorem set_getElem_eq {α : Type _} :
    ∀ (l : List α) (i : Nat) (a : α), (h : i < l.length) → a = l[i] → l.set i a = l := by
  intro l
  induction l with
  | nil => intro i a h; simp at h
  | cons x xs ih =>
    intro i a h ha
    cases i with
    | zero => simpa using ha
    | succ n =>
      simp only [List.set_cons_succ]
      exact congrArg (x :: ·) (ih n a (by simpa using h) (by simpa using ha))

theorem map_skey_merge (l : List Session) (i : Nat) (h : i < l.length)
    (amount : Int) (ts : String) :
    ((l.set i
        { l.getD i default with
            total := (l.getD i default).total + amount, finishedAt := ts }).map skey) =
      l.map skey := by
  rw [List.map_set]
  refine set_getElem_eq _ _ _ (by simpa using h) ?_
  rw [List.getElem_map, List.getD_eq_getElem l default h]
  rfl

theorem keyUnique_of_perm {l m : List Session} (hp : l.Perm m) (h : KeyUnique m) :
    KeyUnique l :=
  ((hp.map skey).nodup_iff).mpr h

theorem mergeOrAppend_keyUnique (prev : List Session) (date location : String)
    (amount : Int) (ts newId : String) (h : KeyUnique prev) :
    KeyUnique (mergeOrAppend prev date location amount ts newId) := by
  unfold mergeOrAppend
  split
  next idx hidx =>
    obtain ⟨hlen, -, -⟩ := List.findIdx?_eq_some_iff_getElem.mp hidx
    apply keyUnique_of_perm (sortSessions_perm _)
    unfold KeyUnique at h ⊢
    rw [map_skey_merge prev idx hlen amount ts]
    exact h
  next hidx =>
    apply keyUnique_of_perm (sortSessions_perm _)
    unfold KeyUnique at h ⊢
    rw [List.map_cons]
    refine List.Nodup.cons ?_ h
    intro hmem
    obtain ⟨r, hr, hkey⟩ := List.mem_map.mp hmem
    have hfalse := List.findIdx?_eq_none_iff.mp hidx r hr
    have hd : r.date = date := congrArg Prod.fst hkey
    have hl : r.location = location := congrArg Prod.snd hkey
    simp [sessionKeyMatch, hd, hl] at hfalse

end LedgerLemmas

section CounterLemmas

theorem counterInv_initial (today : String) : CounterInv (initialCurrent today) := by
  unfold CounterInv initialCurrent
  norm_num

theorem counterInv_applyOp (op : Op) (s : CurrentState) (h : CounterInv s) :
    CounterInv (applyOp op s) := by
  obtain ⟨h1, h2, h3, h4, h5⟩ := h
  cases op with
  | inc k =>
    show CounterInv (onInc k s)
    unfold onInc
    by_cases hen : counterEnabled s
    · rw [hen, Bool.not_true, if_neg Bool.false_ne_true]
      cases k with
      | newCount =>
        dsimp only [getC, setC]
        refine ⟨clamp_lb _, clamp_ub _, h3, h4, ?_⟩
        intro hpos
        have hpos2 : 0 < clamp (s.newCount + 1) 0 99 + s.oldCount := hpos
        simp only [Bool.or_eq_true, decide_eq_true_eq]
        by_cases h0 : 0 < clamp (s.newCount + 1) 0 99
        · exact Or.inl (Or.inr h0)
        · refine Or.inr ?_
          have := clamp_lb (s.newCount + 1)
          omega
      | oldCount =>
        dsimp only [getC, setC]
        refine ⟨h1, h2, clamp_lb _, clamp_ub _, ?_⟩
        intro hpos
        have hpos2 : 0 < s.newCount + clamp (s.oldCount + 1) 0 99 := hpos
        simp only [Bool.or_eq_true, decide_eq_true_eq]
        by_cases h0 : 0 < clamp (s.oldCount + 1) 0 99
        · exact Or.inl (Or.inr h0)
        · refine Or.inr ?_
          have := clamp_lb (s.oldCount + 1)
          omega
    · rw [Bool.not_eq_true] at hen
      rw [hen, Bool.not_false, if_pos rfl]
      exact ⟨h1, h2, h3, h4, h5⟩
  | dec k =>
    show CounterInv (onDec k s)
    unfold onDec
    by_cases hen : counterEnabled s
    · rw [hen, Bool.not_true, if_neg Bool.false_ne_true]
      cases k with
      | newCount =>
        dsimp only [getC, setC]
        refine ⟨clamp_lb _, clamp_ub _, h3, h4, ?_⟩
        intro hpos
        have hpos2 : 0 < clamp (s.newCount - 1) 0 99 + s.oldCount := hpos
        simp only [Bool.or_eq_true, decide_eq_true_eq]
        refine Or.inr ?_
        by_cases h0 : 0 < clamp (s.newCount - 1) 0 99
        · have := clamp_pos.mp h0
          omega
        · omega
      | oldCount =>
        dsimp only [getC, setC]
        refine ⟨h1, h2, clamp_lb _, clamp_ub _, ?_⟩
        intro hpos
        have hpos2 : 0 < s.newCount + clamp (s.oldCount - 1) 0 99 := hpos
        simp only [Bool.or_eq_true, decide_eq_true_eq]
        refine Or.inr ?_
        by_cases h0 : 0 < clamp (s.oldCount - 1) 0 99
        · have := clamp_pos.mp h0
          omega
        · omega
    · rw [Bool.not_eq_true] at hen
      rw [hen, Bool.not_false, if_pos rfl]
      exact ⟨h1, h2, h3, h4, h5⟩
  | reset k =>
    show CounterInv (onReset k s)
    unfold onReset
    by_cases hen : counterEnabled s
    · rw [hen, Bool.not_true, if_neg Bool.false_ne_true]
      cases k with
      | newCount =>
        dsimp only [setC]
        refine ⟨le_refl 0, by norm_num, h3, h4, ?_⟩
        intro hpos
        have hpos2 : 0 < (0 : Int) + s.oldCount := hpos
        exact h5 (by omega)
      | oldCount =>
        dsimp only [setC]
        refine ⟨h1, h2, le_refl 0, by norm_num, ?_⟩
        intro hpos
        have hpos2 : 0 < s.newCount + (0 : Int) := hpos
        exact h5 (by omega)
    · rw [Bool.not_eq_true] at hen
      rw [hen, Bool.not_false, if_pos rfl]
      exact ⟨h1, h2, h3, h4, h5⟩
  | setDate v =>
    show CounterInv (changeDate v s)
    unfold changeDate
    by_cases hl : s.locked = true
    · rw [if_pos hl]
      exact ⟨h1, h2, h3, h4, h5⟩
    · rw [if_neg hl]
      exact ⟨h1, h2, h3, h4, h5⟩
  | setLocation v =>
    show CounterInv (changeLocation v s)
    unfold changeLocation
    by_cases hl : s.locked = true
    · rw [if_pos hl]
      exact ⟨h1, h2, h3, h4, h5⟩
    · rw [if_neg hl]
      exact ⟨h1, h2, h3, h4, h5⟩
  | finish ts newId =>
    show CounterInv (finishCurrent s)
    unfold finishCurrent
    by_cases hc : (decide (totalOf s = 0) || !truthy s.date || !truthy s.location) = true
    · rw [if_pos hc]
      exact ⟨h1, h2, h3, h4, h5⟩
    · rw [if_neg hc]
      refine ⟨le_refl 0, by norm_num, le_refl 0, by norm_num, ?_⟩
      intro hpos
      exact absurd hpos (by norm_num)

theorem counterInv_foldl (ops : List Op) (s : CurrentState) (h : CounterInv s) :
    CounterInv (ops.foldl (fun s op => applyOp op s) s) := by
  induction ops generalizing s with
  | nil => exact h
  | cons op ops ih => exact ih _ (counterInv_applyOp op s h)

theorem counterInv_reachable {today : String} {s : CurrentState}
    (h : Reachable today s) : CounterInv s := by
  obtain ⟨ops, rfl⟩ := h
  exact counterInv_foldl ops _ (counterInv_initial today)

theorem locked_preserved (op : Op) (s : CurrentState) (hop : NonFinishOp op)
    (h : s.locked = true) : (applyOp op s).locked = true := by
  cases op with
  | inc k =>
    show (onInc k s).locked = true
    unfold onInc
    by_cases hen : counterEnabled s
    · rw [hen, Bool.not_true, if_neg Bool.false_ne_true]
      cases k <;> simp [setC, h]
    · rw [Bool.not_eq_true] at hen
      rw [hen, Bool.not_false, if_pos rfl]
      exact h
  | dec k =>
    show (onDec k s).locked = true
    unfold onDec
    by_cases hen : counterEnabled s
    · rw [hen, Bool.not_true, if_neg Bool.false_ne_true]
      cases k <;> simp [setC, h]
    · rw [Bool.not_eq_true] at hen
      rw [hen, Bool.not_false, if_pos rfl]
      exact h
  | reset k =>
    show (onReset k s).locked = true
    unfold onReset
    by_cases hen : counterEnabled s
    · rw [hen, Bool.not_true, if_neg Bool.false_ne_true]
      cases k <;> simp [setC, h]
    · rw [Bool.not_eq_true] at hen
      rw [hen, Bool.not_false, if_pos rfl]
      exact h
  | setDate v =>
    show (changeDate v s).locked = true
    unfold changeDate
    rw [if_pos h]
    exact h
  | setLocation v =>
    show (changeLocation v s).locked = true
    unfold changeLocation
    rw [if_pos h]
    exact h
  | finish ts newId => exact absurd hop id

end CounterLemmas

section FilterLemmas

theorem passes_iff (f : FilterSpec) (s : Session) :
    passes f s = true ↔
      (∀ loc, f.locFilter = some loc → s.location = loc) ∧
      (∀ y, f.yearFilter = some y → yearOf s.date = y) ∧
      (f.monthFilter ≠ 0 → monthNumber s.date = some f.monthFilter) ∧
      (f.fromDate ≠ "" → strLtB s.date f.fromDate = false) ∧
      (f.toDate ≠ "" → strLtB f.toDate s.date = false) := by
  rcases f with ⟨lf, yf, mf, fd, td⟩
  cases lf <;> cases yf <;>
    simp [passes, Option.elim] <;>
    tauto

end FilterLemmas

/-- C1: for every ledger satisfying the key-uniqueness invariant, a finish
(`mergeOrAppend`) preserves it — at most one session per distinct
(date, location) pair — and on the empty ledger merging 5 then 3 for the
same day and location yields exactly one record with total 8, carrying the
second call's finish timestamp. -/
theorem mergeOrAppend_preserves_key_uniqueness :
    (∀ (prev : List Session) (date location : String) (amount : Int) (ts newId : String),
        KeyUnique prev → KeyUnique (mergeOrAppend prev date location amount ts newId)) ∧
    mergeOrAppend
        (mergeOrAppend [] "2024-01-01" "Dhaka" 5 "2024-01-01T09:00:00.000Z" "A")
        "2024-01-01" "Dhaka" 3 "2024-01-01T10:00:00.000Z" "B" =
      [{ sessionId := "A", date := "2024-01-01", location := "Dhaka", total := 8,
         finishedAt := "2024-01-01T10:00:00.000Z" }] := by
  constructor
  · exact mergeOrAppend_keyUnique
  · decide

/-- Witness for C1 at a concrete ledger. -/
theorem mergeOrAppend_preserves_key_uniqueness_witness :
    KeyUnique (mergeOrAppend [] "2024-01-01" "Dhaka" 5 "2024-01-01T09:00:00.000Z" "A") :=
  mergeOrAppend_preserves_key_uniqueness.1 [] "2024-01-01" "Dhaka" 5
    "2024-01-01T09:00:00.000Z" "A" (by unfold KeyUnique; decide)

/-- C2: after every finish — merge branch or append branch — the ledger is
sorted by date descending and, within equal dates, by `finishedAt`
descending; and merging for 2024-01-01 then 2024-01-02 yields two records
with the 2024-01-02 record first. -/
theorem mergeOrAppend_sorted :
    (∀ (prev : List Session) (date location : String) (amount : Int) (ts newId : String),
        SortedByDateThenRecency (mergeOrAppend prev date location amount ts newId)) ∧
    mergeOrAppend
        (mergeOrAppend [] "2024-01-01" "Dhaka" 5 "2024-01-01T09:00:00.000Z" "A")
        "2024-01-02" "Dhaka" 3 "2024-01-02T18:00:00.000Z" "B" =
      [{ sessionId := "B", date := "2024-01-02", location := "Dhaka", total := 3,
         finishedAt := "2024-01-02T18:00:00.000Z" },
       { sessionId := "A", date := "2024-01-01", location := "Dhaka", total := 5,
         finishedAt := "2024-01-01T09:00:00.000Z" }] := by
  constructor
  · intro prev date location amount ts newId
    unfold mergeOrAppend
    split
    · exact sortSessions_sorted _
    · exact sortSessions_sorted _
  · decide

/-- C3: every sequence of increment and decrement operations from the
initial state keeps both counters within [0, 99]. -/
theorem counters_stay_in_range (today : String) (ops : List Op)
    (hops : ∀ op ∈ ops, IsIncDec op) :
    0 ≤ (applyOps today ops).newCount ∧ (applyOps today ops).newCount ≤ 99 ∧
      0 ≤ (applyOps today ops).oldCount ∧ (applyOps today ops).oldCount ≤ 99 := by
  obtain ⟨h1, h2, h3, h4, -⟩ := counterInv_reachable ⟨ops, rfl⟩
  exact ⟨h1, h2, h3, h4⟩

/-- Witness for C3 at a concrete operation sequence. -/
theorem counters_stay_in_range_witness :
    0 ≤ (applyOps "2024-01-01" [Op.inc CKey.newCount, Op.dec CKey.oldCount]).newCount ∧
      (applyOps "2024-01-01" [Op.inc CKey.newCount, Op.dec CKey.oldCount]).newCount ≤ 99 ∧
      0 ≤ (applyOps "2024-01-01" [Op.inc CKey.newCount, Op.dec CKey.oldCount]).oldCount ∧
      (applyOps "2024-01-01" [Op.inc CKey.newCount, Op.dec CKey.oldCount]).oldCount ≤ 99 :=
  counters_stay_in_range "2024-01-01" [Op.inc CKey.newCount, Op.dec CKey.oldCount] (by
    intro op h
    rcases List.mem_cons.mp h with rfl | h
    · trivial
    rcases List.mem_cons.mp h with rfl | h
    · trivial
    · cases h)

/-- C4: in every reachable state a positive combined total forces
`locked = true`, and `locked` is never cleared by any operation other than
`finish` (increment, decrement, reset, setDate, setLocation all preserve
it). -/
theorem locked_one_way_latch :
    (∀ (today : String) (s : CurrentState), Reachable today s →
        0 < s.newCount + s.oldCount → s.locked = true) ∧
    (∀ (op : Op) (s : CurrentState), NonFinishOp op → s.locked = true →
        (applyOp op s).locked = true) := by
  constructor
  · intro today s hs hpos
    exact (counterInv_reachable hs).2.2.2.2 hpos
  · exact locked_preserved

/-- Witness for C4 at a concrete reachable state and operation. -/
theorem locked_one_way_latch_witness :
    (applyOps "2024-01-01" [Op.setLocation "Dhaka", Op.inc CKey.newCount]).locked = true ∧
      (applyOp (Op.setDate "2024-02-02")
        (applyOps "2024-01-01" [Op.setLocation "Dhaka", Op.inc CKey.newCount])).locked =
        true := by
  constructor
  · exact locked_one_way_latch.1 "2024-01-01" _ ⟨_, rfl⟩ (by decide)
  · exact locked_one_way_latch.2 (Op.setDate "2024-02-02") _ trivial
      (locked_one_way_latch.1 "2024-01-01" _ ⟨_, rfl⟩ (by decide))

/-- C5: `finish()` with zero combined total mutates nothing: the ledger is
untouched and the current state — `locked` included — is returned
unchanged. -/
theorem finish_zero_total_noop (sessions : List Session) (cur : CurrentState)
    (ts newId : String) (h : totalOf cur = 0) :
    doFinish sessions cur ts newId = (sessions, cur) := by
  simp [doFinish, h]

/-- Witness for C5 with `locked = true` and zero counters. -/
theorem finish_zero_total_noop_witness :
    doFinish []
        { date := some "2024-01-01", location := some "Dhaka",
          newCount := 0, oldCount := 0, locked := true } "T" "I" =
      ([], { date := some "2024-01-01", location := some "Dhaka",
             newCount := 0, oldCount := 0, locked := true }) :=
  finish_zero_total_noop _ _ _ _ (by decide)

/-- C6: with a positive total and both date and location selected,
`finish()` zeroes both counters and clears `locked` while keeping date and
location unchanged. -/
theorem finish_resets_counters_keeps_context (sessions : List Session)
    (cur : CurrentState) (ts newId : String) (h : 0 < totalOf cur)
    (hd : truthy cur.date = true) (hl : truthy cur.location = true) :
    (doFinish sessions cur ts newId).2 =
      { cur with newCount := 0, oldCount := 0, locked := false } := by
  have hcond : (decide (totalOf cur = 0) || !truthy cur.date || !truthy cur.location)
      = false := by
    simp [hd, hl]
    omega
  unfold doFinish
  rw [hcond, if_neg Bool.false_ne_true]

/-- Witness for C6 at a concrete state. -/
theorem finish_resets_counters_keeps_context_witness :
    (doFinish []
        { date := some "2024-01-01", location := some "Dhaka",
          newCount := 2, oldCount := 1, locked := true } "T" "I").2 =
      { date := some "2024-01-01", location := some "Dhaka",
        newCount := 0, oldCount := 0, locked := false } :=
  finish_resets_counters_keeps_context _ _ _ _ (by decide) (by decide) (by decide)

/-- C7 (counterexample): a failing write is not silently ignored —
`saveSessions` has no catch, so the error from `setItem` propagates,
refuting the claim that save never throws. -/
theorem saveSessions_propagates_failure :
    saveSessions (fun _ _ => Except.error ()) (fun _ => "[]") [] = Except.error () := rfl

/-- C7 (amended): `loadSessions` and `loadCurrent` return the parsed value,
or the default when storage fails, the key is absent, or parsing fails —
they never throw; `saveSessions` serializes and writes, and a write
failure propagates to the caller rather than being swallowed. -/
theorem load_returns_default_save_propagates :
    (∀ parse : String → Except Unit (List Session),
        loadSessions (Except.error ()) parse = []) ∧
    (∀ parse : String → Except Unit (List Session),
        loadSessions (Except.ok none) parse = []) ∧
    (∀ (parse : String → Except Unit (List Session)) (raw : String),
        parse raw = Except.error () →
          loadSessions (Except.ok (some raw)) parse = []) ∧
    (∀ (parse : String → Except Unit (List Session)) (raw : String) (v : List Session),
        raw ≠ "" → parse raw = Except.ok v →
          loadSessions (Except.ok (some raw)) parse = v) ∧
    (∀ (today : String) (parse : String → Except Unit CurrentState),
        loadCurrent today (Except.error ()) parse = initialCurrent today) ∧
    (∀ (today : String) (parse : String → Except Unit CurrentState),
        loadCurrent today (Except.ok none) parse = initialCurrent today) ∧
    (∀ (today raw : String) (parse : String → Except Unit CurrentState),
        parse raw = Except.error () →
          loadCurrent today (Except.ok (some raw)) parse = initialCurrent today) ∧
    (∀ (today raw : String) (v : CurrentState)
        (parse : String → Except Unit CurrentState),
        raw ≠ "" → parse raw = Except.ok v →
          loadCurrent today (Except.ok (some raw)) parse = v) ∧
    (∀ (setItem : String → String → Except Unit Unit)
        (stringify : List Session → String) (list : List Session),
        saveSessions setItem stringify list = setItem SESSIONS_KEY (stringify list)) := by
  refine ⟨fun _ => rfl, fun _ => rfl, ?_, ?_, fun _ _ => rfl, fun _ _ => rfl, ?_, ?_,
    fun _ _ _ => rfl⟩
  · intro parse raw hp
    unfold loadSessions
    by_cases hr : raw = "" <;> simp [hr, hp]
  · intro parse raw v hr hp
    unfold loadSessions
    simp [hr, hp]
  · intro today raw parse hp
    unfold loadCurrent
    by_cases hr : raw = "" <;> simp [hr, hp]
  · intro today raw v parse hr hp
    unfold loadCurrent
    simp [hr, hp]

/-- Witness for C7 at a concrete parse result. -/
theorem load_returns_default_save_propagates_witness :
    loadSessions (Except.ok (some "x"))
        (fun _ => Except.ok [⟨"A", "2024-01-01", "Dhaka", 5, "T"⟩]) =
      [⟨"A", "2024-01-01", "Dhaka", 5, "T"⟩] :=
  load_returns_default_save_propagates.2.2.2.1 _ "x" _ (by decide) rfl

/-- C8: a session is in the filtered output exactly when it is in the
ledger and satisfies every non-ALL / non-empty predicate (AND semantics),
and the all-pass filter spec returns the ledger unchanged (the filter
never mutates it). -/
theorem filter_and_semantics :
    (∀ (f : FilterSpec) (sessions : List Session) (s : Session),
        s ∈ filteredSessions f sessions ↔
          s ∈ sessions ∧
            (∀ loc, f.locFilter = some loc → s.location = loc) ∧
            (∀ y, f.yearFilter = some y → yearOf s.date = y) ∧
            (f.monthFilter ≠ 0 → monthNumber s.date = some f.monthFilter) ∧
            (f.fromDate ≠ "" → strLtB s.date f.fromDate = false) ∧
            (f.toDate ≠ "" → strLtB f.toDate s.date = false)) ∧
    (∀ sessions : List Session,
        filteredSessions
          { locFilter := none, yearFilter := none, monthFilter := 0,
            fromDate := "", toDate := "" } sessions = sessions) := by
  constructor
  · intro f sessions s
    rw [filteredSessions, List.mem_filter, passes_iff]
  · intro sessions
    refine List.filter_eq_self.mpr ?_
    intro a _
    simp [passes]

/-- Witness for C8: the all-pass spec applied to a concrete ledger. -/
theorem filter_and_semantics_witness :
    filteredSessions
        { locFilter := none, yearFilter := none, monthFilter := 0,
          fromDate := "", toDate := "" }
        [{ sessionId := "A", date := "2024-01-01", location := "Dhaka", total := 5,
           finishedAt := "T" }] =
      [{ sessionId := "A", date := "2024-01-01", location := "Dhaka", total := 5,
         finishedAt := "T" }] :=
  filter_and_semantics.2 _

/-- C9: service-worker activation deletes every existing cache whose name
differs from the current version tag and preserves the cache named by the
current version tag. -/
theorem activate_deletes_stale_caches (keys : List String) (k : String)
    (hk : k ∈ keys) :
    (k ≠ CACHE → activateDeletes k = true ∧ k ∉ cachesAfterActivate keys) ∧
    (k = CACHE → activateDeletes k = false ∧ k ∈ cachesAfterActivate keys) := by
  constructor
  · intro h
    refine ⟨by simp [activateDeletes, h], ?_⟩
    intro hmem
    rw [cachesAfterActivate, List.mem_filter] at hmem
    have hdel : activateDeletes k = false := by simpa using hmem.2
    simp [activateDeletes, h] at hdel
  · intro h
    subst h
    refine ⟨by simp [activateDeletes], ?_⟩
    rw [cachesAfterActivate, List.mem_filter]
    exact ⟨hk, by simp [activateDeletes]⟩

/-- Witness for C9 on a concrete cache list. -/
theorem activate_deletes_stale_caches_witness :
    (activateDeletes "pcache-v0" = true ∧
      "pcache-v0" ∉ cachesAfterActivate ["pcache-v1", "pcache-v0"]) ∧
    (activateDeletes "pcache-v1" = false ∧
      "pcache-v1" ∈ cachesAfterActivate ["pcache-v1", "pcache-v0"]) :=
  ⟨(activate_deletes_stale_caches ["pcache-v1", "pcache-v0"] "pcache-v0"
      (by decide)).1 (by decide),
   (activate_deletes_stale_caches ["pcache-v1", "pcache-v0"] "pcache-v1"
      (by decide)).2 rfl⟩

/-- C10: with a positive total but a missing date or location, `finish()`
is a complete no-op: the ledger and the whole current state — counters,
lock, date, location — are unchanged. -/
theorem finish_missing_context_noop (sessions : List Session) (cur : CurrentState)
    (ts newId : String) (h : 0 < totalOf cur)
    (hmiss : cur.date = none ∨ cur.location = none) :
    doFinish sessions cur ts newId = (sessions, cur) := by
  unfold doFinish
  rcases hmiss with hm | hm <;> rw [hm] <;> simp [truthy]

/-- Witness for C10 at a concrete state with no date selected. -/
theorem finish_missing_context_noop_witness :
    doFinish []
        { date := none, location := some "Dhaka",
          newCount := 3, oldCount := 0, locked := true } "T" "I" =
      ([], { date := none, location := some "Dhaka",
             newCount := 3, oldCount := 0, locked := true }) :=
  finish_missing_context_noop _ _ _ _ (by decide) (Or.inl rfl)

end PatientCounter
